import Mathlib

/-!
Verification of the peer connection manager (`chain/network/src/peer_manager.rs`).

The Rust code is shallowly embedded: the `PeerStore` and the
`PeerManagerActor` state become Lean structures, each handler or method
becomes a pure state-passing function, fallible operations return
`Except Unit`, and `chrono` timestamps become `Nat` (seconds).  `HashMap`
and `HashSet` are modelled as association lists / lists with unique keys;
lookups, inserts and removals follow the hash-map semantics
(insert overwrites, remove deletes the key).
-/

/-- Peer identity; a totally ordered stable id (the public key). -/
abbrev PeerId := Nat

/-- Validator account identity. -/
abbrev AccountId := Nat

/-- `PeerInfo` from `crate::types`: id, optional listen address, optional account. -/
structure PeerInfo where
  id : PeerId
  addr : Option Nat
  account_id : Option AccountId
deriving DecidableEq

/-- Per-peer chain view; only `total_weight` is relevant to the manager. -/
structure ChainInfo where
  total_weight : Nat
deriving DecidableEq

/-- `FullPeerInfo`: the pair needed to treat a peer as active. -/
structure FullPeerInfo where
  peer_info : PeerInfo
  chain_info : ChainInfo
deriving DecidableEq

/-- `KnownPeerStatus`: Unknown | NotConnected | Connected | Banned(reason, since). -/
inductive KnownPeerStatus where
  | Unknown
  | NotConnected
  | Connected
  | Banned (reason : Nat) (since : Nat)
deriving DecidableEq

/-- `KnownPeerState`: the persisted unit. -/
structure KnownPeerState where
  peer_info : PeerInfo
  status : KnownPeerStatus
  first_seen : Nat
  last_seen : Nat
deriving DecidableEq

/-- Modelled from the spec: `KnownPeerState::new` lives in `crate::types`,
which is not among the sources.  Its status is pinned by the spec's
description of `add_peers` ("inserts only those not already present, status
`Unknown`"), because `add_peers` inserts exactly
`KnownPeerState::new(peer_info)` and manipulates no status itself;
`first_seen` and `last_seen` are the current time. -/
def KnownPeerState.new (pi : PeerInfo) (now : Nat) : KnownPeerState :=
  { peer_info := pi, status := KnownPeerStatus.Unknown, first_seen := now, last_seen := now }

/-- Association-list lookup, modelling `HashMap::get`. -/
def alookup {V : Type} (m : List (PeerId × V)) (k : PeerId) : Option V :=
  match m with
  | [] => none
  | (k', v) :: rest => if k' = k then some v else alookup rest k

/-- Association-list insert, modelling `HashMap::insert` (overwrites the key). -/
def ainsert {V : Type} (m : List (PeerId × V)) (k : PeerId) (v : V) : List (PeerId × V) :=
  (k, v) :: m.filter (fun p => decide (p.1 ≠ k))

/-- Association-list removal, modelling `HashMap::remove`. -/
def aremove {V : Type} (m : List (PeerId × V)) (k : PeerId) : List (PeerId × V) :=
  m.filter (fun p => decide (p.1 ≠ k))

/-- The known-peers store: the in-memory map and the persisted PEERS column. -/
structure PeerStore where
  peer_states : List (PeerId × KnownPeerState)
  persisted : List (PeerId × KnownPeerState)
deriving DecidableEq

/-- A raw record of the persisted PEERS column as read back at startup:
either it deserializes to a `(PeerId, KnownPeerState)` pair or it is corrupt. -/
inductive RawRecord where
  | good (id : PeerId) (st : KnownPeerState)
  | corrupt
deriving DecidableEq

/-- The load loop of `PeerStore::new` (lines 52-59): each good record is
inserted with its status coerced to `NotConnected`; a corrupt record makes
the whole load fail. -/
def loadFrom (acc : List (PeerId × KnownPeerState)) :
    List RawRecord → Except Unit (List (PeerId × KnownPeerState))
  | [] => Except.ok acc
  | RawRecord.corrupt :: _ => Except.error ()
  | RawRecord.good id st :: rest =>
      loadFrom (ainsert acc id { st with status := KnownPeerStatus.NotConnected }) rest

/-- Insert-if-absent loop shared by the boot-node union in `PeerStore::new`
(lines 60-64) and by `PeerStore::add_peers` (lines 188-194): peers whose id
is already a key are skipped, the rest are inserted as `KnownPeerState::new`. -/
def insertIfAbsentAll (acc : List (PeerId × KnownPeerState)) (now : Nat) :
    List PeerInfo → List (PeerId × KnownPeerState)
  | [] => acc
  | pi :: rest =>
      insertIfAbsentAll
        (if (alookup acc pi.id).isSome then acc
         else ainsert acc pi.id (KnownPeerState.new pi now)) now rest

/-- `PeerStore::new` (lines 50-66): load the persisted column, then union in
the boot nodes that are not yet present.  Returns the in-memory map. -/
def PeerStore.new (raw : List RawRecord) (boot : List PeerInfo) (now : Nat) :
    Except Unit (List (PeerId × KnownPeerState)) :=
  match loadFrom [] raw with
  | Except.error e => Except.error e
  | Except.ok m => Except.ok (insertIfAbsentAll m now boot)

/-- `PeerStore::peer_connected` (lines 72-85): upsert the entry, set
`last_seen = now` and `status = Connected`, persist it. -/
def PeerStore.peer_connected (ps : PeerStore) (full : FullPeerInfo) (now : Nat) : PeerStore :=
  let base :=
    match alookup ps.peer_states full.peer_info.id with
    | some e => e
    | none => KnownPeerState.new full.peer_info now
  let entry := { base with last_seen := now, status := KnownPeerStatus.Connected }
  { peer_states := ainsert ps.peer_states full.peer_info.id entry,
    persisted := ainsert ps.persisted full.peer_info.id entry }

/-- `PeerStore::peer_disconnected` (lines 87-97): flip the entry (if any) to
`NotConnected`, bump `last_seen`, persist; error when the peer is unknown. -/
def PeerStore.peer_disconnected (ps : PeerStore) (id : PeerId) (now : Nat) :
    Except Unit PeerStore :=
  match alookup ps.peer_states id with
  | some e =>
      let entry := { e with last_seen := now, status := KnownPeerStatus.NotConnected }
      Except.ok { peer_states := ainsert ps.peer_states id entry,
                  persisted := ainsert ps.persisted id entry }
  | none => Except.error ()

/-- `PeerStore::peer_ban` (lines 99-113): set `Banned(reason, now)`, bump
`last_seen`, persist; error when the peer is unknown. -/
def PeerStore.peer_ban (ps : PeerStore) (id : PeerId) (reason now : Nat) :
    Except Unit PeerStore :=
  match alookup ps.peer_states id with
  | some e =>
      let entry := { e with last_seen := now,
                            status := KnownPeerStatus.Banned reason now }
      Except.ok { peer_states := ainsert ps.peer_states id entry,
                  persisted := ainsert ps.persisted id entry }
  | none => Except.error ()

/-- `PeerStore::peer_unban` (lines 115-124): set `NotConnected` (no
`last_seen` bump), persist; error when the peer is unknown. -/
def PeerStore.peer_unban (ps : PeerStore) (id : PeerId) : Except Unit PeerStore :=
  match alookup ps.peer_states id with
  | some e =>
      let entry := { e with status := KnownPeerStatus.NotConnected }
      Except.ok { peer_states := ainsert ps.peer_states id entry,
                  persisted := ainsert ps.persisted id entry }
  | none => Except.error ()

/-- `PeerStore::unconnected_peers` (lines 143-148): `find_peers` with
count 0, i.e. all peers whose status is `NotConnected` or `Unknown`,
without shuffling. -/
def PeerStore.unconnected_peers (ps : PeerStore) : List PeerInfo :=
  (ps.peer_states.filter (fun p =>
      decide (p.2.status = KnownPeerStatus.NotConnected ∨
              p.2.status = KnownPeerStatus.Unknown))).map (fun p => p.2.peer_info)

/-- The expiry condition of `PeerStore::remove_expired` (line 173-175):
non-`Connected` and not seen for more than the expiration duration. -/
def expiredEntry (now ttl : Nat) (p : PeerId × KnownPeerState) : Bool :=
  decide (p.2.status ≠ KnownPeerStatus.Connected) && decide (ttl < now - p.2.last_seen)

/-- `PeerStore::remove_expired` (lines 168-186): `(now - last_seen).to_std()?`
fails when any entry's `last_seen` lies in the future (the whole call errors
before anything is removed); otherwise every expired entry is dropped from
the map and deleted from the persisted column in one batch. -/
def PeerStore.remove_expired (ps : PeerStore) (now ttl : Nat) : Except Unit PeerStore :=
  if ps.peer_states.any (fun p => decide (now < p.2.last_seen)) then Except.error ()
  else
    let removeIds := (ps.peer_states.filter (expiredEntry now ttl)).map (fun p => p.1)
    Except.ok
      { peer_states := ps.peer_states.filter (fun p => ! expiredEntry now ttl p),
        persisted := ps.persisted.filter (fun p => decide (p.1 ∉ removeIds)) }

/-- The manager-side use of `remove_expired` through `unwrap_or_error!`
(lines 375-378): on error the store is left as it was. -/
def removeExpiredRun (ps : PeerStore) (now ttl : Nat) : PeerStore :=
  match ps.remove_expired now ttl with
  | Except.ok ps' => ps'
  | Except.error _ => ps

/-- `PeerStore::add_peers` (lines 188-194): insert-if-absent with
`KnownPeerState::new`; the persisted column is never touched. -/
def PeerStore.add_peers (ps : PeerStore) (peers : List PeerInfo) (now : Nat) : PeerStore :=
  { ps with peer_states := insertIfAbsentAll ps.peer_states now peers }

/-- `PeerType`. -/
inductive PeerType where
  | Inbound
  | Outbound
deriving DecidableEq

/-- The `Consolidate` message (the session actor handle is dropped:
it carries no manager-relevant data). -/
structure Consolidate where
  peer_info : PeerInfo
  chain_info : ChainInfo
  peer_type : PeerType
deriving DecidableEq

/-- The relevant `NetworkConfig` fields. -/
structure NetworkConfig where
  peer_max_count : Nat
  ban_window : Nat
  peer_expiration_duration : Nat
deriving DecidableEq

/-- The `PeerManagerActor` state (session `Addr` handles dropped). -/
structure PeerManager where
  peer_id : PeerId
  config : NetworkConfig
  peer_store : PeerStore
  outgoing_peers : List PeerId
  active_peers : List (PeerId × FullPeerInfo)
  account_peers : List (AccountId × PeerId)
deriving DecidableEq

/-- `PeerManagerActor::register_peer` (lines 238-247): drop the id from the
outgoing set, persist `Connected`, index the account id if present, insert
into the active set. -/
def PeerManager.register_peer (st : PeerManager) (full : FullPeerInfo) (now : Nat) :
    PeerManager :=
  { st with
    outgoing_peers := st.outgoing_peers.filter (fun x => decide (x ≠ full.peer_info.id)),
    peer_store := st.peer_store.peer_connected full now,
    account_peers :=
      match full.peer_info.account_id with
      | some a => ainsert st.account_peers a full.peer_info.id
      | none => st.account_peers,
    active_peers := ainsert st.active_peers full.peer_info.id full }

/-- `PeerManagerActor::unregister_peer` (lines 249-262): an outgoing
reservation is just dropped; otherwise the active entry (with its account
index entry) is removed and the store marks the peer disconnected, the store
error being swallowed by `unwrap_or_error!`. -/
def PeerManager.unregister_peer (st : PeerManager) (id : PeerId) (now : Nat) : PeerManager :=
  if id ∈ st.outgoing_peers then
    { st with outgoing_peers := st.outgoing_peers.filter (fun x => decide (x ≠ id)) }
  else
    let st1 :=
      match alookup st.active_peers id with
      | some full =>
          { st with
            account_peers :=
              match full.peer_info.account_id with
              | some a => st.account_peers.filter (fun p => decide (p.1 ≠ a))
              | none => st.account_peers,
            active_peers := aremove st.active_peers id }
      | none => st
    match st1.peer_store.peer_disconnected id now with
    | Except.ok ps => { st1 with peer_store := ps }
    | Except.error _ => st1

/-- `PeerManagerActor::ban_peer` (lines 264-268): remove from the active set
and persist the ban (the account index is not touched); the store error is
swallowed by `unwrap_or_error!`. -/
def PeerManager.ban_peer (st : PeerManager) (id : PeerId) (reason now : Nat) : PeerManager :=
  let st1 := { st with active_peers := aremove st.active_peers id }
  match st1.peer_store.peer_ban id reason now with
  | Except.ok ps => { st1 with peer_store := ps }
  | Except.error _ => st1

/-- `Handler<Consolidate>` (lines 547-570): reject when already active;
reject the inbound side of a simultaneous connect when the remote id is
greater than ours; otherwise register and accept. -/
def PeerManager.handle_consolidate (st : PeerManager) (msg : Consolidate) (now : Nat) :
    Bool × PeerManager :=
  if (alookup st.active_peers msg.peer_info.id).isSome then (false, st)
  else if msg.peer_type = PeerType.Inbound ∧ msg.peer_info.id ∈ st.outgoing_peers ∧
          st.peer_id < msg.peer_info.id then (false, st)
  else (true, st.register_peer { peer_info := msg.peer_info, chain_info := msg.chain_info } now)

/-- The successful completion of `Handler<OutboundTcpConnect>` (line 521):
the dialled id is inserted into the outgoing set. -/
def PeerManager.dial_complete (st : PeerManager) (pi : PeerInfo) : PeerManager :=
  { st with outgoing_peers :=
      if pi.id ∈ st.outgoing_peers then st.outgoing_peers
      else st.outgoing_peers ++ [pi.id] }

/-- `PeerManagerActor::is_outbound_bootstrap_needed` (lines 304-307). -/
def PeerManager.is_outbound_bootstrap_needed (st : PeerManager) : Bool :=
  st.active_peers.length + st.outgoing_peers.length < st.config.peer_max_count

/-- `PeerManagerActor::most_weight_peers` (lines 310-326): empty when there
is no active peer, otherwise every active peer whose `total_weight` equals
the maximum. -/
def PeerManager.most_weight_peers (st : PeerManager) : List FullPeerInfo :=
  match (st.active_peers.map (fun p => p.2.chain_info.total_weight)).max? with
  | none => []
  | some w =>
      (st.active_peers.filter
        (fun p => decide (p.2.chain_info.total_weight = w))).map (fun p => p.2)

/-- The `Info` response of `NetworkRequests::FetchInfo`. -/
structure Info where
  num_active_peers : Nat
  peer_max_count : Nat
  most_weight_peers : List FullPeerInfo
deriving DecidableEq

/-- The `FetchInfo` arm of `Handler<NetworkRequests>` (lines 443-447);
the manager state is returned unchanged. -/
def PeerManager.handle_fetch_info (st : PeerManager) : Info × PeerManager :=
  ({ num_active_peers := st.active_peers.length,
     peer_max_count := st.config.peer_max_count,
     most_weight_peers := st.most_weight_peers }, st)

/-- `Handler<PeersResponse>` (lines 596-602): filter out our own id, then
`add_peers`. -/
def PeerManager.handle_peers_response (st : PeerManager) (peers : List PeerInfo) (now : Nat) :
    PeerManager :=
  { st with peer_store :=
      st.peer_store.add_peers (peers.filter (fun pi => decide (pi.id ≠ st.peer_id))) now }

/-- The unban sweep of `monitor_peers` (lines 346-364): collecting the ids
to unban fails (aborting the whole tick through `unwrap_or_error!`) as soon
as a banned entry's timestamp lies in the future; otherwise every peer
banned for longer than `ban_window` is unbanned. -/
def unbanSweep (ps : PeerStore) (ban_window now : Nat) : Option PeerStore :=
  if ps.peer_states.any (fun p =>
        match p.2.status with
        | KnownPeerStatus.Banned _ since => decide (now < since)
        | _ => false) then none
  else
    let toUnban := ps.peer_states.filterMap (fun p =>
      match p.2.status with
      | KnownPeerStatus.Banned _ since =>
          if ban_window < now - since then some p.1 else none
      | _ => none)
    some (toUnban.foldl (fun s id =>
      match s.peer_unban id with
      | Except.ok s' => s'
      | Except.error _ => s) ps)

/-- What one control-loop tick emits besides its state: the outbound
connects enqueued via `ctx.notify` and whether a `PeersRequest` was
broadcast to the active set. -/
structure TickResult where
  st : PeerManager
  connects : List PeerInfo
  broadcastPeersRequest : Bool
deriving DecidableEq

/-- `PeerManagerActor::monitor_peers` (lines 345-384), with the drawn random
index `r` passed explicitly (`sample_random_peer`, lines 329-338, draws
`r` uniformly below `max(|unconnected|, 1)` and returns the `r`-th
unconnected peer).  An error in the unban sweep aborts the tick; an error
in `remove_expired` leaves the store as it was. -/
def PeerManager.monitor_peers (st : PeerManager) (now r : Nat) : TickResult :=
  match unbanSweep st.peer_store st.config.ban_window now with
  | none => { st := st, connects := [], broadcastPeersRequest := false }
  | some ps1 =>
      let st1 := { st with peer_store := ps1 }
      let picked :=
        if st1.is_outbound_bootstrap_needed then
          match st1.peer_store.unconnected_peers[r]? with
          | some pi => (([pi] : List PeerInfo), false)
          | none => (([] : List PeerInfo), true)
        else (([] : List PeerInfo), false)
      let st2 :=
        { st1 with peer_store :=
            removeExpiredRun st1.peer_store now st1.config.peer_expiration_duration }
      { st := st2, connects := picked.1, broadcastPeersRequest := picked.2 }

/-- The manager operations a peer session or the client layer can trigger. -/
inductive MgrOp where
  | dial (pi : PeerInfo)
  | consolidate (msg : Consolidate) (now : Nat)
  | unregister (id : PeerId) (now : Nat)
  | ban (id : PeerId) (reason now : Nat)
deriving DecidableEq

/-- One manager step. -/
def PeerManager.applyOp (st : PeerManager) (op : MgrOp) : PeerManager :=
  match op with
  | MgrOp.dial pi => st.dial_complete pi
  | MgrOp.consolidate msg now => (st.handle_consolidate msg now).2
  | MgrOp.unregister id now => st.unregister_peer id now
  | MgrOp.ban id reason now => st.ban_peer id reason now

/-- A sequence of manager steps. -/
def PeerManager.runOps (st : PeerManager) (ops : List MgrOp) : PeerManager :=
  ops.foldl PeerManager.applyOp st

/-- Disjointness of the active and outgoing sets, as the spec states it. -/
def disjointSets (st : PeerManager) : Prop :=
  ∀ id ∈ st.outgoing_peers, alookup st.active_peers id = none

/-- Manager states reachable by dial completions that target a peer not
currently active, consolidations, unregistrations and bans, from any state
with empty active and outgoing sets. -/
inductive GoodReach : PeerManager → Prop where
  | init (st : PeerManager) : st.outgoing_peers = [] → st.active_peers = [] → GoodReach st
  | dial (st : PeerManager) (pi : PeerInfo) : GoodReach st →
      alookup st.active_peers pi.id = none → GoodReach (st.applyOp (MgrOp.dial pi))
  | consolidate (st : PeerManager) (msg : Consolidate) (now : Nat) : GoodReach st →
      GoodReach (st.applyOp (MgrOp.consolidate msg now))
  | unregister (st : PeerManager) (id : PeerId) (now : Nat) : GoodReach st →
      GoodReach (st.applyOp (MgrOp.unregister id now))
  | ban (st : PeerManager) (id : PeerId) (reason now : Nat) : GoodReach st →
      GoodReach (st.applyOp (MgrOp.ban id reason now))

/-- The unconnected pool a tick's bootstrap samples from: the store after
the unban sweep (unchanged when the sweep aborts). -/
def PeerManager.sweptUnconnected (st : PeerManager) (now : Nat) : List PeerInfo :=
  ((unbanSweep st.peer_store st.config.ban_window now).getD st.peer_store).unconnected_peers

/-- Whether a status carries no ban timestamp in the future. -/
def banTimeOk (now : Nat) (s : KnownPeerStatus) : Bool :=
  match s with
  | KnownPeerStatus.Banned _ since => decide (since ≤ now)
  | _ => true

/-- The load loop of `PeerStore::new` ignoring corrupt records: the map the
successful load produces. -/
def loadedMapFrom (acc : List (PeerId × KnownPeerState)) :
    List RawRecord → List (PeerId × KnownPeerState)
  | [] => acc
  | RawRecord.corrupt :: rest => loadedMapFrom acc rest
  | RawRecord.good id st :: rest =>
      loadedMapFrom (ainsert acc id { st with status := KnownPeerStatus.NotConnected }) rest

/-- The map loaded from the persisted column when no record is corrupt. -/
def loadedMap (raw : List RawRecord) : List (PeerId × KnownPeerState) :=
  loadedMapFrom [] raw

/-- A config used by the concrete examples. -/
def exampleConfig : NetworkConfig :=
  { peer_max_count := 5, ban_window := 10, peer_expiration_duration := 100 }

/-- The empty peer store. -/
def emptyStore : PeerStore := { peer_states := [], persisted := [] }

/-- A gossiped peer with neither address nor account. -/
def mkPeer (id : PeerId) : PeerInfo := { id := id, addr := none, account_id := none }

/-- A fresh manager with peer id 1. -/
def mgrInit : PeerManager :=
  { peer_id := 1, config := exampleConfig, peer_store := emptyStore,
    outgoing_peers := [], active_peers := [], account_peers := [] }

/-- A fresh manager with peer id 5. -/
def mgrInit5 : PeerManager :=
  { peer_id := 5, config := exampleConfig, peer_store := emptyStore,
    outgoing_peers := [], active_peers := [], account_peers := [] }

/-- A manager whose own id 5 sits in the outgoing set. -/
def selfConsolidateState : PeerManager :=
  { peer_id := 5, config := exampleConfig, peer_store := emptyStore,
    outgoing_peers := [5], active_peers := [], account_peers := [] }

/-- An inbound consolidate whose reported id equals the local id 5. -/
def selfConsolidateMsg : Consolidate :=
  { peer_info := mkPeer 5, chain_info := { total_weight := 0 },
    peer_type := PeerType.Inbound }

/-- A manager (id 5) with peer 3 in the outgoing set. -/
def raceState : PeerManager :=
  { peer_id := 5, config := exampleConfig, peer_store := emptyStore,
    outgoing_peers := [3], active_peers := [], account_peers := [] }

/-- An inbound consolidate from peer 3. -/
def raceMsg : Consolidate :=
  { peer_info := mkPeer 3, chain_info := { total_weight := 0 },
    peer_type := PeerType.Inbound }

/-- A peer declaring account id 3. -/
def accountPeerInfo : PeerInfo := { id := 7, addr := none, account_id := some 3 }

/-- The consolidate message of that peer. -/
def accountConsolidate : Consolidate :=
  { peer_info := accountPeerInfo, chain_info := { total_weight := 1 },
    peer_type := PeerType.Outbound }

/-- Register the account-declaring peer, then ban it. -/
def banAfterRegister : PeerManager :=
  mgrInit.runOps [MgrOp.consolidate accountConsolidate 0, MgrOp.ban 7 0 1]

/-- A store entry with status `Unknown`, never connected. -/
def unknownEntry : KnownPeerState :=
  { peer_info := mkPeer 9, status := KnownPeerStatus.Unknown, first_seen := 0, last_seen := 0 }

/-- A manager that merely knows peer 9 (neither active nor outgoing). -/
def knownOnlyState : PeerManager :=
  { peer_id := 1, config := exampleConfig,
    peer_store := { peer_states := [(9, unknownEntry)], persisted := [(9, unknownEntry)] },
    outgoing_peers := [], active_peers := [], account_peers := [] }

/-- Dial peer 1, accept its simultaneous inbound consolidate, then complete
the stale dial: the sequence that breaks active/outgoing disjointness. -/
def racedOps : List MgrOp :=
  [MgrOp.dial (mkPeer 1),
   MgrOp.consolidate
     { peer_info := mkPeer 1, chain_info := { total_weight := 0 },
       peer_type := PeerType.Inbound } 0,
   MgrOp.dial (mkPeer 1)]

/-- A boot node. -/
def bootPeer : PeerInfo := { id := 2, addr := some 0, account_id := none }

/-- A persisted record whose status claims `Connected`. -/
def storedConnectedEntry : KnownPeerState :=
  { peer_info := mkPeer 6, status := KnownPeerStatus.Connected, first_seen := 0, last_seen := 4 }

/-- A banned entry whose ban timestamp lies in the future of tick time 100. -/
def futureBanEntry : KnownPeerState :=
  { peer_info := mkPeer 3, status := KnownPeerStatus.Banned 0 101,
    first_seen := 0, last_seen := 50 }

/-- A manager knowing only the future-banned peer. -/
def futureBanState : PeerManager :=
  { peer_id := 1, config := exampleConfig,
    peer_store := { peer_states := [(3, futureBanEntry)], persisted := [(3, futureBanEntry)] },
    outgoing_peers := [], active_peers := [], account_peers := [] }

/-- A disconnected peer last seen at time 0. -/
def staleEntry : KnownPeerState :=
  { peer_info := mkPeer 1, status := KnownPeerStatus.NotConnected,
    first_seen := 0, last_seen := 0 }

/-- A connected peer whose `last_seen` lies in the future of time 100. -/
def futureSeenEntry : KnownPeerState :=
  { peer_info := mkPeer 2, status := KnownPeerStatus.Connected,
    first_seen := 0, last_seen := 200 }

/-- A store holding one genuinely expired peer and one future-stamped peer. -/
def skewedStore : PeerStore :=
  { peer_states := [(1, staleEntry), (2, futureSeenEntry)],
    persisted := [(1, staleEntry), (2, futureSeenEntry)] }

/-- A store holding only the expired peer. -/
def expiryStore : PeerStore :=
  { peer_states := [(1, staleEntry)], persisted := [(1, staleEntry)] }

/-- An active peer with weight 9. -/
def activeFull : FullPeerInfo :=
  { peer_info := mkPeer 4, chain_info := { total_weight := 9 } }

/-- A manager with a single active peer. -/
def oneActiveState : PeerManager :=
  { peer_id := 1, config := exampleConfig, peer_store := emptyStore,
    outgoing_peers := [], active_peers := [(4, activeFull)], account_peers := [] }

/-- A store knowing peer 9, used to witness `add_peers` frame conditions. -/
def hintStore : PeerStore :=
  { peer_states := [(9, unknownEntry)], persisted := [(9, unknownEntry)] }

/-- A gossiped hint peer. -/
def hintPeer : PeerInfo := mkPeer 8

theorem alookup_filter_ne {V : Type} (m : List (PeerId × V)) (k k' : PeerId) (h : k ≠ k') :
    alookup (m.filter (fun p => decide (p.1 ≠ k))) k' = alookup m k' := by
  induction m with
  | nil => rfl
  | cons hd tl ih =>
      obtain ⟨a, b⟩ := hd
      rw [List.filter_cons]
      by_cases hh : a = k
      · rw [if_neg (by simp [hh])]
        rw [ih]
        have hne : ¬ a = k' := by rw [hh]; exact h
        simp only [alookup]
        rw [if_neg hne]
      · rw [if_pos (by simp [hh])]
        simp only [alookup]
        by_cases h2 : a = k'
        · rw [if_pos h2, if_pos h2]
        · rw [if_neg h2, if_neg h2, ih]

theorem alookup_filter_self {V : Type} (m : List (PeerId × V)) (k : PeerId) :
    alookup (m.filter (fun p => decide (p.1 ≠ k))) k = none := by
  induction m with
  | nil => rfl
  | cons hd tl ih =>
      obtain ⟨a, b⟩ := hd
      rw [List.filter_cons]
      by_cases hh : a = k
      · rw [if_neg (by simp [hh])]; exact ih
      · rw [if_pos (by simp [hh])]
        simp only [alookup]
        rw [if_neg hh]
        exact ih

theorem alookup_ainsert {V : Type} (m : List (PeerId × V)) (k k' : PeerId) (v : V) :
    alookup (ainsert m k v) k' = if k = k' then some v else alookup m k' := by
  by_cases h : k = k'
  · simp only [ainsert, alookup]
    rw [if_pos h, if_pos h]
  · simp only [ainsert, alookup]
    rw [if_neg h, if_neg h]
    exact alookup_filter_ne m k k' h

theorem alookup_aremove {V : Type} (m : List (PeerId × V)) (k k' : PeerId) :
    alookup (aremove m k) k' = if k = k' then none else alookup m k' := by
  by_cases h : k = k'
  · subst h
    rw [if_pos rfl]
    exact alookup_filter_self m k
  · rw [if_neg h]
    exact alookup_filter_ne m k k' h

theorem mem_filter_ne {m : List PeerId} {k x : PeerId} :
    x ∈ m.filter (fun y => decide (y ≠ k)) ↔ x ∈ m ∧ x ≠ k := by
  simp [List.mem_filter]

theorem natMaxSomeIff {xs : List Nat} {a : Nat} :
    xs.max? = some a ↔ a ∈ xs ∧ ∀ b ∈ xs, b ≤ a :=
  List.max?_eq_some_iff (fun a => le_refl a) (fun a b => max_choice a b)
    (fun _ _ _ => max_le_iff)

theorem insertIfAbsentAll_preserves (now : Nat) (l : List PeerInfo) :
    ∀ (acc : List (PeerId × KnownPeerState)) (id : PeerId) (v : KnownPeerState),
      alookup acc id = some v → alookup (insertIfAbsentAll acc now l) id = some v := by
  induction l with
  | nil => intro acc id v h; exact h
  | cons pi rest ih =>
      intro acc id v h
      simp only [insertIfAbsentAll]
      by_cases hc : (alookup acc pi.id).isSome = true
      · rw [if_pos hc]; exact ih acc id v h
      · rw [if_neg hc]
        apply ih
        rw [alookup_ainsert]
        by_cases he : pi.id = id
        · rw [he, h] at hc
          exact absurd rfl hc
        · rw [if_neg he]; exact h

theorem insertIfAbsentAll_absent (now : Nat) (l : List PeerInfo) :
    ∀ (acc : List (PeerId × KnownPeerState)) (id : PeerId),
      alookup acc id = none → id ∉ l.map PeerInfo.id →
      alookup (insertIfAbsentAll acc now l) id = none := by
  induction l with
  | nil => intro acc id h _; exact h
  | cons pi rest ih =>
      intro acc id h hmem
      simp only [List.map_cons, List.mem_cons] at hmem
      push_neg at hmem
      simp only [insertIfAbsentAll]
      by_cases hc : (alookup acc pi.id).isSome = true
      · rw [if_pos hc]
        exact ih acc id h (by simpa using hmem.2)
      · rw [if_neg hc]
        apply ih
        · rw [alookup_ainsert, if_neg (fun he => hmem.1 he.symm)]
          exact h
        · simpa using hmem.2

theorem insertIfAbsentAll_lookup_or (now : Nat) (l : List PeerInfo) :
    ∀ (acc : List (PeerId × KnownPeerState)) (id : PeerId),
      alookup (insertIfAbsentAll acc now l) id = alookup acc id ∨
      ∃ pi, pi ∈ l ∧ pi.id = id ∧
        alookup (insertIfAbsentAll acc now l) id = some (KnownPeerState.new pi now) := by
  induction l with
  | nil => intro acc id; exact Or.inl rfl
  | cons hd rest ih =>
      intro acc id
      simp only [insertIfAbsentAll]
      by_cases hc : (alookup acc hd.id).isSome = true
      · rw [if_pos hc]
        rcases ih acc id with h | ⟨pi, hmem, hid, hl⟩
        · exact Or.inl h
        · exact Or.inr ⟨pi, List.mem_cons_of_mem hd hmem, hid, hl⟩
      · rw [if_neg hc]
        rcases ih (ainsert acc hd.id (KnownPeerState.new hd now)) id with h | ⟨pi, hmem, hid, hl⟩
        · rw [alookup_ainsert] at h
          by_cases he : hd.id = id
          · exact Or.inr ⟨hd, List.mem_cons_self hd rest, he, by rw [h, if_pos he]⟩
          · rw [if_neg he] at h
            exact Or.inl h
        · exact Or.inr ⟨pi, List.mem_cons_of_mem hd hmem, hid, hl⟩

theorem insertIfAbsentAll_mem (now : Nat) (l : List PeerInfo) :
    ∀ (acc : List (PeerId × KnownPeerState)), ∀ pi ∈ l,
      (alookup (insertIfAbsentAll acc now l) pi.id).isSome = true := by
  induction l with
  | nil => intro _ _ h; exact absurd h (List.not_mem_nil _)
  | cons hd rest ih =>
      intro acc pi hmem
      simp only [insertIfAbsentAll]
      rcases List.mem_cons.mp hmem with he | hrest
      · subst he
        by_cases hc : (alookup acc pi.id).isSome = true
        · rw [if_pos hc]
          obtain ⟨v, hv⟩ := Option.isSome_iff_exists.mp hc
          rw [insertIfAbsentAll_preserves now rest acc pi.id v hv]
          rfl
        · rw [if_neg hc]
          rw [insertIfAbsentAll_preserves now rest _ pi.id (KnownPeerState.new pi now)
            (by rw [alookup_ainsert, if_pos rfl])]
          rfl
      · by_cases hc : (alookup acc hd.id).isSome = true
        · rw [if_pos hc]; exact ih acc pi hrest
        · rw [if_neg hc]; exact ih _ pi hrest

theorem insertIfAbsentAll_new_status (now : Nat) (l : List PeerInfo)
    (acc : List (PeerId × KnownPeerState)) (id : PeerId) (v : KnownPeerState)
    (habs : alookup acc id = none)
    (h : alookup (insertIfAbsentAll acc now l) id = some v) :
    v.status = KnownPeerStatus.Unknown := by
  rcases insertIfAbsentAll_lookup_or now l acc id with h0 | ⟨pi, _, _, hl⟩
  · rw [h, habs] at h0
    exact absurd h0 (by simp)
  · rw [h] at hl
    have : v = KnownPeerState.new pi now := by injection hl
    rw [this]
    rfl

theorem loadFrom_ok_of_no_corrupt :
    ∀ (raw : List RawRecord) (acc : List (PeerId × KnownPeerState)),
      RawRecord.corrupt ∉ raw → loadFrom acc raw = Except.ok (loadedMapFrom acc raw) := by
  intro raw
  induction raw with
  | nil => intro acc _; rfl
  | cons r rest ih =>
      intro acc hno
      cases r with
      | corrupt => exact absurd (List.mem_cons_self _ _) hno
      | good id st =>
          simp only [loadFrom, loadedMapFrom]
          exact ih _ (fun hm => hno (List.mem_cons_of_mem _ hm))

theorem loadFrom_error_of_corrupt :
    ∀ (raw : List RawRecord) (acc : List (PeerId × KnownPeerState)),
      RawRecord.corrupt ∈ raw → loadFrom acc raw = Except.error () := by
  intro raw
  induction raw with
  | nil => intro acc h; exact absurd h (List.not_mem_nil _)
  | cons r rest ih =>
      intro acc hmem
      cases r with
      | corrupt => rfl
      | good id st =>
          simp only [loadFrom]
          rcases List.mem_cons.mp hmem with he | hrest
          · exact absurd he.symm (by simp)
          · exact ih _ hrest

theorem loadedMapFrom_status :
    ∀ (raw : List RawRecord) (acc : List (PeerId × KnownPeerState)),
      (∀ id v, alookup acc id = some v → v.status = KnownPeerStatus.NotConnected) →
      ∀ id v, alookup (loadedMapFrom acc raw) id = some v →
        v.status = KnownPeerStatus.NotConnected := by
  intro raw
  induction raw with
  | nil => intro acc hacc id v h; exact hacc id v h
  | cons r rest ih =>
      intro acc hacc id v h
      cases r with
      | corrupt => exact ih acc hacc id v h
      | good rid rst =>
          refine ih _ ?_ id v h
          intro id' v' h'
          rw [alookup_ainsert] at h'
          by_cases he : rid = id'
          · rw [if_pos he] at h'
            have : v' = { rst with status := KnownPeerStatus.NotConnected } := by
              injection h' with hv
              exact hv.symm
            rw [this]
          · rw [if_neg he] at h'
            exact hacc id' v' h'

/-- C1, counterexample: for an inbound `Consolidate` whose reported id
equals the local peer id while that id sits in the outgoing set, the
handler accepts (the code only rejects when the remote id is strictly
greater), yet the claimed acceptance condition `id < self.peer_id` is
false.  So "returns true iff the id is less than the local node's peer id"
does not hold as stated. -/
theorem C1_counterexample :
    selfConsolidateMsg.peer_type = PeerType.Inbound ∧
    selfConsolidateMsg.peer_info.id ∈ selfConsolidateState.outgoing_peers ∧
    (selfConsolidateState.handle_consolidate selfConsolidateMsg 0).1 = true ∧
    ¬ (selfConsolidateMsg.peer_info.id < selfConsolidateState.peer_id) := by
  decide

/-- C2: the account-index invariant is broken by `ban_peer`.  Starting from
a fresh manager, peer 7 consolidates declaring account 3 (so the active set
is `{7}` and the account index `{3 ↦ 7}`); banning 7 empties the active set
but leaves `3 ↦ 7` in the account index, so key 3 is the account of no
active peer, contradicting the claimed invariant. -/
theorem C2_ban_keeps_account_entry :
    alookup (mgrInit.runOps [MgrOp.consolidate accountConsolidate 0]).active_peers 7 =
      some { peer_info := accountPeerInfo, chain_info := { total_weight := 1 } } ∧
    alookup (mgrInit.runOps [MgrOp.consolidate accountConsolidate 0]).account_peers 3 =
      some 7 ∧
    banAfterRegister.active_peers = [] ∧
    banAfterRegister.account_peers = [(3, 7)] := by
  decide

/-- C3, counterexample: peer 9 is neither active nor outgoing, but it is a
known peer, so `Unregister{9}` is not a no-op: `unregister_peer`
unconditionally calls `peer_disconnected`, which rewrites the store entry
(status to `NotConnected`, `last_seen` to now) and persists it. -/
theorem C3_counterexample :
    (9 : PeerId) ∉ knownOnlyState.outgoing_peers ∧
    alookup knownOnlyState.active_peers 9 = none ∧
    (knownOnlyState.unregister_peer 9 100).peer_store ≠ knownOnlyState.peer_store := by
  decide

/-- C4, counterexample: from a fresh manager, complete a dial to peer 1,
accept peer 1's simultaneous inbound consolidate (1 < 5, so it is
accepted and 1 becomes active), then let a second dial to peer 1 complete:
the handler re-inserts 1 into the outgoing set with 1 still active, so the
active and outgoing sets intersect in a reachable state. -/
theorem C4_counterexample : ¬ disjointSets (mgrInit5.runOps racedOps) := by
  intro h
  have h1 := h 1 (by decide)
  exact absurd h1 (by decide)

/-- C5, counterexample: opening an empty store with one boot node yields
that boot node with status `Unknown` (the status `KnownPeerState::new`
gives), not `NotConnected` as claimed. -/
theorem C5_counterexample :
    PeerStore.new [] [bootPeer] 0 =
      Except.ok [(2, KnownPeerState.new bootPeer 0)] ∧
    (KnownPeerState.new bootPeer 0).status ≠ KnownPeerStatus.NotConnected :=
  ⟨rfl, by decide⟩

/-- C7, counterexample: with one banned peer whose ban timestamp lies in
the future of the tick time, the bound `|active| + |outgoing| <
peer_max_count` holds and the unconnected pool is empty, yet no
`PeersRequest` is broadcast: the unban sweep's timestamp conversion fails
and `unwrap_or_error!` aborts the whole tick first. -/
theorem C7_counterexample :
    futureBanState.is_outbound_bootstrap_needed = true ∧
    futureBanState.peer_store.unconnected_peers = [] ∧
    (futureBanState.monitor_peers 100 0).connects = [] ∧
    (futureBanState.monitor_peers 100 0).broadcastPeersRequest = false := by
  decide

/-- C8, counterexample: with one genuinely expired non-`Connected` peer and
one peer whose `last_seen` lies in the future, `remove_expired` returns an
error before deleting anything, so the expired peer remains in the store
after the call, contrary to the unconditional claim. -/
theorem C8_counterexample :
    skewedStore.remove_expired 100 10 = Except.error () ∧
    removeExpiredRun skewedStore 100 10 = skewedStore ∧
    alookup skewedStore.peer_states 1 = some staleEntry ∧
    staleEntry.status ≠ KnownPeerStatus.Connected ∧
    10 < 100 - staleEntry.last_seen :=
  ⟨rfl, rfl, by decide, by decide, by decide⟩

/-- C10: whenever some peer in the store (of any status, `Connected`
included) has `last_seen` in the future of `now`, `remove_expired` returns
an error before deleting anything: the in-memory map and the persisted
column are left exactly as they were, even for peers that are genuinely
expired. -/
theorem C10_remove_expired_future_error (ps : PeerStore) (now ttl : Nat)
    (h : ∃ p ∈ ps.peer_states, now < p.2.last_seen) :
    ps.remove_expired now ttl = Except.error () ∧
    removeExpiredRun ps now ttl = ps := by
  have hany : ps.peer_states.any (fun p => decide (now < p.2.last_seen)) = true := by
    rcases h with ⟨p, hmem, hlt⟩
    exact List.any_eq_true.mpr ⟨p, hmem, by simpa using hlt⟩
  have herr : ps.remove_expired now ttl = Except.error () := by
    rw [PeerStore.remove_expired, if_pos hany]
  exact ⟨herr, by rw [removeExpiredRun, herr]⟩

/-- C10, witness: the concrete skewed store triggers the error and is left
unchanged. -/
theorem C10_witness :
    skewedStore.remove_expired 100 10 = Except.error () ∧
    removeExpiredRun skewedStore 100 10 = skewedStore :=
  C10_remove_expired_future_error skewedStore 100 10 (by decide)

/-- C1 (amended): if the peer's id is already active the handler returns
false and leaves the state unchanged; if the connection is inbound and the
id is in the outgoing set it returns true iff the id is **not greater
than** the local peer id (for distinct ids: iff it is less); otherwise it
returns true.  On true the id leaves the outgoing set, the store entry is
marked `Connected`, the account id (if any) is indexed, and the peer enters
the active set; in a simultaneous-connect race between distinct ids the
inbound consolidate is accepted exactly on the node with the larger id. -/
theorem C1_amended (st : PeerManager) (msg : Consolidate) (now : Nat) :
    ((alookup st.active_peers msg.peer_info.id).isSome = true →
        st.handle_consolidate msg now = (false, st)) ∧
    (alookup st.active_peers msg.peer_info.id = none →
      msg.peer_type = PeerType.Inbound → msg.peer_info.id ∈ st.outgoing_peers →
        ((st.handle_consolidate msg now).1 = true ↔ msg.peer_info.id ≤ st.peer_id)) ∧
    (alookup st.active_peers msg.peer_info.id = none →
      ¬ (msg.peer_type = PeerType.Inbound ∧ msg.peer_info.id ∈ st.outgoing_peers) →
        (st.handle_consolidate msg now).1 = true) ∧
    ((st.handle_consolidate msg now).1 = true →
        ((st.handle_consolidate msg now).2 =
            st.register_peer { peer_info := msg.peer_info, chain_info := msg.chain_info } now ∧
         msg.peer_info.id ∉ (st.handle_consolidate msg now).2.outgoing_peers ∧
         (∀ v, alookup (st.handle_consolidate msg now).2.peer_store.peer_states
                  msg.peer_info.id = some v →
             v.status = KnownPeerStatus.Connected ∧ v.last_seen = now) ∧
         (alookup (st.handle_consolidate msg now).2.peer_store.peer_states
             msg.peer_info.id).isSome = true ∧
         alookup (st.handle_consolidate msg now).2.peer_store.persisted msg.peer_info.id =
           alookup (st.handle_consolidate msg now).2.peer_store.peer_states
             msg.peer_info.id ∧
         (∀ a, msg.peer_info.account_id = some a →
             alookup (st.handle_consolidate msg now).2.account_peers a =
               some msg.peer_info.id) ∧
         alookup (st.handle_consolidate msg now).2.active_peers msg.peer_info.id =
           some { peer_info := msg.peer_info, chain_info := msg.chain_info })) ∧
    (alookup st.active_peers msg.peer_info.id = none →
      msg.peer_type = PeerType.Inbound → msg.peer_info.id ∈ st.outgoing_peers →
      msg.peer_info.id < st.peer_id → (st.handle_consolidate msg now).1 = true) ∧
    (alookup st.active_peers msg.peer_info.id = none →
      msg.peer_type = PeerType.Inbound → msg.peer_info.id ∈ st.outgoing_peers →
      st.peer_id < msg.peer_info.id → (st.handle_consolidate msg now).1 = false) := by
  refine ⟨?_, ?_, ?_, ?_, ?_, ?_⟩
  · intro h
    simp only [PeerManager.handle_consolidate]
    rw [if_pos h]
  · intro hnone hin hmem
    simp only [PeerManager.handle_consolidate]
    rw [if_neg (by simp [hnone])]
    by_cases hlt : st.peer_id < msg.peer_info.id
    · rw [if_pos ⟨hin, hmem, hlt⟩]
      exact iff_of_false (by simp) (not_le.mpr hlt)
    · rw [if_neg (fun hc => hlt hc.2.2)]
      exact iff_of_true rfl (not_lt.mp hlt)
  · intro hnone hnot
    simp only [PeerManager.handle_consolidate]
    rw [if_neg (by simp [hnone]), if_neg (fun hc => hnot ⟨hc.1, hc.2.1⟩)]
  · intro hres
    by_cases h1 : (alookup st.active_peers msg.peer_info.id).isSome = true
    · simp only [PeerManager.handle_consolidate] at hres
      rw [if_pos h1] at hres
      exact absurd hres (by simp)
    · by_cases h2 : msg.peer_type = PeerType.Inbound ∧
          msg.peer_info.id ∈ st.outgoing_peers ∧ st.peer_id < msg.peer_info.id
      · simp only [PeerManager.handle_consolidate] at hres
        rw [if_neg h1, if_pos h2] at hres
        exact absurd hres (by simp)
      · have heq : st.handle_consolidate msg now =
            (true, st.register_peer
              { peer_info := msg.peer_info, chain_info := msg.chain_info } now) := by
          simp only [PeerManager.handle_consolidate]
          rw [if_neg h1, if_neg h2]
        rw [heq]
        refine ⟨rfl, ?_, ?_, ?_, ?_, ?_, ?_⟩
        · intro hmem
          exact (mem_filter_ne.mp hmem).2 rfl
        · intro v hv
          simp only [PeerManager.register_peer, PeerStore.peer_connected] at hv
          rw [alookup_ainsert, if_pos rfl] at hv
          have hv' := hv.symm
          injection hv' with hveq
          rw [hveq]
          exact ⟨rfl, rfl⟩
        · simp only [PeerManager.register_peer, PeerStore.peer_connected]
          rw [alookup_ainsert, if_pos rfl]
          rfl
        · simp only [PeerManager.register_peer, PeerStore.peer_connected]
          rw [alookup_ainsert, if_pos rfl, alookup_ainsert, if_pos rfl]
        · intro a ha
          simp only [PeerManager.register_peer, ha]
          rw [alookup_ainsert, if_pos rfl]
        · simp only [PeerManager.register_peer]
          rw [alookup_ainsert, if_pos rfl]
  · intro hnone hin hmem hlt
    simp only [PeerManager.handle_consolidate]
    rw [if_neg (by simp [hnone]), if_neg (fun hc => absurd hlt (not_lt.mpr (le_of_lt hc.2.2)))]
  · intro hnone hin hmem hgt
    simp only [PeerManager.handle_consolidate]
    rw [if_neg (by simp [hnone]), if_pos ⟨hin, hmem, hgt⟩]

/-- C1, witness: a manager with id 5 and peer 3 in its outgoing set accepts
the inbound consolidate from peer 3 (3 ≤ 5). -/
theorem C1_witness : (raceState.handle_consolidate raceMsg 0).1 = true :=
  ((C1_amended raceState raceMsg 0).2.1 (by decide) (by decide) (by decide)).mpr (by decide)

/-- C3 (amended): for a peer id that is neither active nor outgoing,
`Unregister{peer_id}` leaves the active set, the outgoing set and the
account index unchanged; the peer store is unchanged exactly when the id is
not a known peer, and otherwise the known entry is rewritten to status
`NotConnected` with `last_seen = now` and persisted (so the handler is not
a no-op on the store for known peers). -/
theorem C3_amended (st : PeerManager) (id : PeerId) (now : Nat)
    (hout : id ∉ st.outgoing_peers) (hact : alookup st.active_peers id = none) :
    (st.unregister_peer id now).outgoing_peers = st.outgoing_peers ∧
    (st.unregister_peer id now).active_peers = st.active_peers ∧
    (st.unregister_peer id now).account_peers = st.account_peers ∧
    (alookup st.peer_store.peer_states id = none → st.unregister_peer id now = st) ∧
    (∀ e, alookup st.peer_store.peer_states id = some e →
      (st.unregister_peer id now).peer_store.peer_states =
        ainsert st.peer_store.peer_states id
          { e with last_seen := now, status := KnownPeerStatus.NotConnected } ∧
      (st.unregister_peer id now).peer_store.persisted =
        ainsert st.peer_store.persisted id
          { e with last_seen := now, status := KnownPeerStatus.NotConnected }) := by
  have hbranch : st.unregister_peer id now =
      match st.peer_store.peer_disconnected id now with
      | Except.ok ps => { st with peer_store := ps }
      | Except.error _ => st := by
    simp only [PeerManager.unregister_peer]
    rw [if_neg hout]
    simp only [hact]
  rw [hbranch]
  cases hd : st.peer_store.peer_disconnected id now with
  | error e =>
      refine ⟨rfl, rfl, rfl, fun _ => rfl, ?_⟩
      intro en hen
      have hok : st.peer_store.peer_disconnected id now =
          Except.ok { peer_states := ainsert st.peer_store.peer_states id
                        { en with last_seen := now, status := KnownPeerStatus.NotConnected },
                      persisted := ainsert st.peer_store.persisted id
                        { en with last_seen := now, status := KnownPeerStatus.NotConnected } } := by
        simp only [PeerStore.peer_disconnected, hen]
      rw [hd] at hok
      exact absurd hok (by simp)
  | ok ps =>
      refine ⟨rfl, rfl, rfl, ?_, ?_⟩
      · intro hnone
        have herr : st.peer_store.peer_disconnected id now = Except.error () := by
          simp only [PeerStore.peer_disconnected, hnone]
        rw [hd] at herr
        exact absurd herr (by simp)
      · intro en hen
        have hok : st.peer_store.peer_disconnected id now =
            Except.ok { peer_states := ainsert st.peer_store.peer_states id
                          { en with last_seen := now, status := KnownPeerStatus.NotConnected },
                        persisted := ainsert st.peer_store.persisted id
                          { en with last_seen := now, status := KnownPeerStatus.NotConnected } } := by
          simp only [PeerStore.peer_disconnected, hen]
        rw [hd] at hok
        injection hok with hps
        rw [hps]
        exact ⟨rfl, rfl⟩

/-- C3, witness: unregistering the known-but-inactive peer 9 rewrites its
store entry to `NotConnected` with the new timestamp. -/
theorem C3_witness :
    (knownOnlyState.unregister_peer 9 100).peer_store.peer_states =
      ainsert knownOnlyState.peer_store.peer_states 9
        { unknownEntry with last_seen := 100, status := KnownPeerStatus.NotConnected } :=
  ((C3_amended knownOnlyState 9 100 (by decide) (by decide)).2.2.2.2 unknownEntry
    (by decide)).1

theorem unregister_peer_fields (st : PeerManager) (id0 : PeerId) (now : Nat) :
    ((st.unregister_peer id0 now).outgoing_peers = st.outgoing_peers ∨
     (st.unregister_peer id0 now).outgoing_peers =
       st.outgoing_peers.filter (fun x => decide (x ≠ id0))) ∧
    ((st.unregister_peer id0 now).active_peers = st.active_peers ∨
     (st.unregister_peer id0 now).active_peers = aremove st.active_peers id0) := by
  simp only [PeerManager.unregister_peer]
  by_cases hc : id0 ∈ st.outgoing_peers
  · rw [if_pos hc]
    exact ⟨Or.inr rfl, Or.inl rfl⟩
  · rw [if_neg hc]
    cases halook : alookup st.active_peers id0 with
    | none =>
        simp only [halook]
        cases hd : st.peer_store.peer_disconnected id0 now with
        | ok ps => exact ⟨Or.inl rfl, Or.inl rfl⟩
        | error e => exact ⟨Or.inl rfl, Or.inl rfl⟩
    | some full =>
        simp only [halook]
        cases full.peer_info.account_id with
        | none =>
            cases hd : st.peer_store.peer_disconnected id0 now with
            | ok ps => exact ⟨Or.inl rfl, Or.inr rfl⟩
            | error e => exact ⟨Or.inl rfl, Or.inr rfl⟩
        | some a =>
            cases hd : st.peer_store.peer_disconnected id0 now with
            | ok ps => exact ⟨Or.inl rfl, Or.inr rfl⟩
            | error e => exact ⟨Or.inl rfl, Or.inr rfl⟩

theorem ban_peer_fields (st : PeerManager) (id0 : PeerId) (reason now : Nat) :
    (st.ban_peer id0 reason now).outgoing_peers = st.outgoing_peers ∧
    (st.ban_peer id0 reason now).active_peers = aremove st.active_peers id0 := by
  simp only [PeerManager.ban_peer]
  cases hd : st.peer_store.peer_ban id0 reason now with
  | ok ps => exact ⟨rfl, rfl⟩
  | error e => exact ⟨rfl, rfl⟩

/-- C4 (amended): the active and outgoing sets are disjoint in every state
reachable by consolidations, unregistrations, bans, and dial completions
**whose target is not currently active**; the unguarded insert of
`Handler<OutboundTcpConnect>` makes the restriction on dial completions
necessary. -/
theorem C4_amended (st : PeerManager) (h : GoodReach st) : disjointSets st := by
  induction h with
  | init st hout hact =>
      intro id hid
      rw [hout] at hid
      exact absurd hid (List.not_mem_nil _)
  | dial st pi hr hpi ih =>
      intro id hid
      simp only [PeerManager.applyOp, PeerManager.dial_complete] at hid ⊢
      by_cases hc : pi.id ∈ st.outgoing_peers
      · rw [if_pos hc] at hid
        exact ih id hid
      · rw [if_neg hc] at hid
        rcases List.mem_append.mp hid with hmem | hone
        · exact ih id hmem
        · have he : id = pi.id := by simpa using hone
          rw [he]
          exact hpi
  | consolidate st msg now hr ih =>
      by_cases h1 : (alookup st.active_peers msg.peer_info.id).isSome = true
      · have heq : st.applyOp (MgrOp.consolidate msg now) = st := by
          simp only [PeerManager.applyOp, PeerManager.handle_consolidate]
          rw [if_pos h1]
        rw [heq]
        exact ih
      · by_cases h2 : msg.peer_type = PeerType.Inbound ∧
            msg.peer_info.id ∈ st.outgoing_peers ∧ st.peer_id < msg.peer_info.id
        · have heq : st.applyOp (MgrOp.consolidate msg now) = st := by
            simp only [PeerManager.applyOp, PeerManager.handle_consolidate]
            rw [if_neg h1, if_pos h2]
          rw [heq]
          exact ih
        · have heq : st.applyOp (MgrOp.consolidate msg now) =
              st.register_peer
                { peer_info := msg.peer_info, chain_info := msg.chain_info } now := by
            simp only [PeerManager.applyOp, PeerManager.handle_consolidate]
            rw [if_neg h1, if_neg h2]
          rw [heq]
          intro id hid
          simp only [PeerManager.register_peer] at hid ⊢
          have hid' := mem_filter_ne.mp hid
          rw [alookup_ainsert, if_neg (fun he => hid'.2 he.symm)]
          exact ih id hid'.1
  | unregister st id0 now hr ih =>
      intro id hid
      simp only [PeerManager.applyOp] at hid ⊢
      obtain ⟨ho, ha⟩ := unregister_peer_fields st id0 now
      have hid2 : id ∈ st.outgoing_peers := by
        rcases ho with h | h
        · rw [h] at hid; exact hid
        · rw [h] at hid; exact (mem_filter_ne.mp hid).1
      rcases ha with h | h
      · rw [h]
        exact ih id hid2
      · rw [h, alookup_aremove]
        by_cases he : id0 = id
        · rw [if_pos he]
        · rw [if_neg he]
          exact ih id hid2
  | ban st id0 reason now hr ih =>
      intro id hid
      simp only [PeerManager.applyOp] at hid ⊢
      obtain ⟨ho, ha⟩ := ban_peer_fields st id0 reason now
      rw [ho] at hid
      rw [ha, alookup_aremove]
      by_cases he : id0 = id
      · rw [if_pos he]
      · rw [if_neg he]
        exact ih id hid

/-- C4, witness: after a guarded dial completion for peer 1 from a fresh
manager, peer 1 is outgoing and the theorem yields that it is not active. -/
theorem C4_witness :
    alookup (mgrInit5.applyOp (MgrOp.dial (mkPeer 1))).active_peers 1 = none :=
  C4_amended (mgrInit5.applyOp (MgrOp.dial (mkPeer 1)))
    (GoodReach.dial mgrInit5 (mkPeer 1) (GoodReach.init mgrInit5 rfl rfl) rfl)
    1 (by decide)

/-- C5 (amended): opening the peer store loads every persisted entry with
its status coerced to `NotConnected`, never lets a boot node overwrite a
loaded entry, adds every boot node whose id was not loaded with status
`Unknown` (the status `KnownPeerState::new` produces, not `NotConnected`),
and fails exactly when some persisted record does not deserialize. -/
theorem C5_amended (raw : List RawRecord) (boot : List PeerInfo) (now : Nat) :
    (RawRecord.corrupt ∈ raw ↔ ¬ (PeerStore.new raw boot now).isOk = true) ∧
    (∀ m, PeerStore.new raw boot now = Except.ok m →
      (∀ id v, alookup (loadedMap raw) id = some v →
          alookup m id = some v ∧ v.status = KnownPeerStatus.NotConnected) ∧
      (∀ pi ∈ boot, (alookup m pi.id).isSome = true) ∧
      (∀ pi ∈ boot, alookup (loadedMap raw) pi.id = none →
          ∀ v, alookup m pi.id = some v → v.status = KnownPeerStatus.Unknown)) := by
  constructor
  · constructor
    · intro hcor
      have herr := loadFrom_error_of_corrupt raw [] hcor
      simp only [PeerStore.new, herr]
      simp
      rfl
    · intro hnok
      by_contra hcor
      have hok := loadFrom_ok_of_no_corrupt raw [] hcor
      apply hnok
      simp only [PeerStore.new, hok]
      rfl
  · intro m hm
    have hnc : RawRecord.corrupt ∉ raw := by
      intro hcor
      have herr := loadFrom_error_of_corrupt raw [] hcor
      simp only [PeerStore.new, herr] at hm
      exact absurd hm (by simp)
    have hok := loadFrom_ok_of_no_corrupt raw [] hnc
    have hm2 : m = insertIfAbsentAll (loadedMap raw) now boot := by
      simp only [PeerStore.new, hok] at hm
      injection hm with h
      exact h.symm
    subst hm2
    refine ⟨?_, ?_, ?_⟩
    · intro id v hv
      refine ⟨insertIfAbsentAll_preserves now boot _ id v hv, ?_⟩
      refine loadedMapFrom_status raw [] ?_ id v hv
      intro id' v' h'
      simp [alookup] at h'
    · intro pi hpi
      exact insertIfAbsentAll_mem now boot _ pi hpi
    · intro pi hpi habs v hv
      exact insertIfAbsentAll_new_status now boot _ pi.id v habs hv

/-- C5, witness: a persisted record stored as `Connected` is loaded back as
`NotConnected` and survives the union with a boot node. -/
theorem C5_witness :
    alookup (insertIfAbsentAll (loadedMap [RawRecord.good 6 storedConnectedEntry]) 0
        [bootPeer]) 6 =
      some { storedConnectedEntry with status := KnownPeerStatus.NotConnected } ∧
    ({ storedConnectedEntry with status := KnownPeerStatus.NotConnected } :
        KnownPeerState).status = KnownPeerStatus.NotConnected :=
  ((C5_amended [RawRecord.good 6 storedConnectedEntry] [bootPeer] 0).2
      (insertIfAbsentAll (loadedMap [RawRecord.good 6 storedConnectedEntry]) 0 [bootPeer])
      rfl).1 6
    { storedConnectedEntry with status := KnownPeerStatus.NotConnected } (by decide)

/-- C6: `add_peers` inserts exactly the peers whose id is not yet a key
(each getting status `Unknown`), leaves every present entry unchanged, and
never writes the persisted column; the `PeersResponse` handler filters out
the local node's id before calling `add_peers` and touches nothing else. -/
theorem C6_add_peers (ps : PeerStore) (l : List PeerInfo) (now : Nat) (st : PeerManager) :
    (ps.add_peers l now).persisted = ps.persisted ∧
    (∀ id v, alookup ps.peer_states id = some v →
        alookup (ps.add_peers l now).peer_states id = some v) ∧
    (∀ id, alookup ps.peer_states id = none → id ∉ l.map PeerInfo.id →
        alookup (ps.add_peers l now).peer_states id = none) ∧
    (∀ pi ∈ l, (alookup (ps.add_peers l now).peer_states pi.id).isSome = true) ∧
    (∀ id v, alookup ps.peer_states id = none →
        alookup (ps.add_peers l now).peer_states id = some v →
        v.status = KnownPeerStatus.Unknown) ∧
    (st.handle_peers_response l now).peer_store =
      st.peer_store.add_peers (l.filter (fun pi => decide (pi.id ≠ st.peer_id))) now ∧
    alookup (st.handle_peers_response l now).peer_store.peer_states st.peer_id =
      alookup st.peer_store.peer_states st.peer_id ∧
    (st.handle_peers_response l now).outgoing_peers = st.outgoing_peers ∧
    (st.handle_peers_response l now).active_peers = st.active_peers ∧
    (st.handle_peers_response l now).account_peers = st.account_peers := by
  refine ⟨rfl, ?_, ?_, ?_, ?_, rfl, ?_, rfl, rfl, rfl⟩
  · intro id v hv
    exact insertIfAbsentAll_preserves now l ps.peer_states id v hv
  · intro id hnone hnmem
    exact insertIfAbsentAll_absent now l ps.peer_states id hnone hnmem
  · intro pi hpi
    exact insertIfAbsentAll_mem now l ps.peer_states pi hpi
  · intro id v hnone hv
    exact insertIfAbsentAll_new_status now l ps.peer_states id v hnone hv
  · simp only [PeerManager.handle_peers_response, PeerStore.add_peers]
    cases hself : alookup st.peer_store.peer_states st.peer_id with
    | some v =>
        rw [insertIfAbsentAll_preserves now _ _ st.peer_id v hself]
    | none =>
        rw [insertIfAbsentAll_absent now _ _ st.peer_id hself]
        intro hmem
        obtain ⟨pi, hpi, hid⟩ := List.mem_map.mp hmem
        have := (List.mem_filter.mp hpi).2
        rw [hid] at this
        simp at this

/-- C6, witness: a hint whose id is already known leaves the existing entry
in place. -/
theorem C6_witness :
    alookup (hintStore.add_peers [hintPeer, mkPeer 9] 5).peer_states 9 =
      some unknownEntry :=
  (C6_add_peers hintStore [hintPeer, mkPeer 9] 5 mgrInit).2.1 9 unknownEntry (by decide)

/-- C7 (amended): on a control-loop tick whose unban sweep does not abort
(no banned entry carries a ban timestamp in the future — the code otherwise
returns from the tick before the bootstrap step), at most one
`OutboundTcpConnect` is enqueued; one is enqueued only if
`|active| + |outgoing| < peer_max_count` and the post-sweep unconnected
pool is non-empty, in which case the target is the `r`-th element of that
pool for the uniformly drawn index `r`; if the bound holds but the pool is
empty a `PeersRequest` is broadcast instead; if the bound fails, neither
happens. -/
theorem C7_amended (st : PeerManager) (now r : Nat)
    (hban : st.peer_store.peer_states.all (fun p => banTimeOk now p.2.status) = true) :
    (st.monitor_peers now r).connects.length ≤ 1 ∧
    ((st.monitor_peers now r).connects ≠ [] →
        st.is_outbound_bootstrap_needed = true ∧ st.sweptUnconnected now ≠ []) ∧
    (st.is_outbound_bootstrap_needed = true →
        ∀ h : r < (st.sweptUnconnected now).length,
          (st.monitor_peers now r).connects = [(st.sweptUnconnected now).get ⟨r, h⟩] ∧
          (st.monitor_peers now r).broadcastPeersRequest = false) ∧
    (st.is_outbound_bootstrap_needed = true → st.sweptUnconnected now = [] →
        (st.monitor_peers now r).broadcastPeersRequest = true ∧
        (st.monitor_peers now r).connects = []) ∧
    (st.is_outbound_bootstrap_needed = false →
        (st.monitor_peers now r).connects = [] ∧
        (st.monitor_peers now r).broadcastPeersRequest = false) := by
  have hcond : (st.peer_store.peer_states.any (fun p =>
      match p.2.status with
      | KnownPeerStatus.Banned _ since => decide (now < since)
      | _ => false)) = false := by
    rw [List.any_eq_false]
    intro p hp
    have hb := List.all_eq_true.mp hban p hp
    cases hst : p.2.status with
    | Banned reason since =>
        rw [hst] at hb
        simp only [banTimeOk] at hb
        simp only [hst]
        simp at hb ⊢
        omega
    | Unknown => simp only [hst]; simp
    | NotConnected => simp only [hst]; simp
    | Connected => simp only [hst]; simp
  obtain ⟨ps1, hps1⟩ : ∃ ps1,
      unbanSweep st.peer_store st.config.ban_window now = some ps1 := by
    simp only [unbanSweep]
    rw [if_neg (by rw [hcond]; simp)]
    exact ⟨_, rfl⟩
  have hcon : (st.monitor_peers now r).connects =
      (if st.is_outbound_bootstrap_needed then
        match (st.sweptUnconnected now)[r]? with
        | some pi => (([pi] : List PeerInfo), false)
        | none => (([] : List PeerInfo), true)
      else (([] : List PeerInfo), false)).1 := by
    simp only [PeerManager.monitor_peers, hps1, PeerManager.sweptUnconnected,
      Option.getD_some, PeerManager.is_outbound_bootstrap_needed]
  have hbro : (st.monitor_peers now r).broadcastPeersRequest =
      (if st.is_outbound_bootstrap_needed then
        match (st.sweptUnconnected now)[r]? with
        | some pi => (([pi] : List PeerInfo), false)
        | none => (([] : List PeerInfo), true)
      else (([] : List PeerInfo), false)).2 := by
    simp only [PeerManager.monitor_peers, hps1, PeerManager.sweptUnconnected,
      Option.getD_some, PeerManager.is_outbound_bootstrap_needed]
  refine ⟨?_, ?_, ?_, ?_, ?_⟩
  · rw [hcon]
    by_cases hb : st.is_outbound_bootstrap_needed = true
    · rw [if_pos hb]
      cases hu : (st.sweptUnconnected now)[r]? with
      | some pi => simp
      | none => simp
    · rw [if_neg hb]
      simp
  · intro hne
    rw [hcon] at hne
    by_cases hb : st.is_outbound_bootstrap_needed = true
    · refine ⟨hb, ?_⟩
      intro h0
      rw [if_pos hb] at hne
      rw [h0] at hne
      simp at hne
    · rw [if_neg hb] at hne
      simp at hne
  · intro hb h
    have hu : (st.sweptUnconnected now)[r]? =
        some ((st.sweptUnconnected now).get ⟨r, h⟩) := by
      rw [List.getElem?_eq_getElem h]
      rfl
    constructor
    · rw [hcon, if_pos hb, hu]
    · rw [hbro, if_pos hb, hu]
  · intro hb he
    have hu : (st.sweptUnconnected now)[r]? = none := by
      rw [he]
      simp
    constructor
    · rw [hbro, if_pos hb, hu]
    · rw [hcon, if_pos hb, hu]
  · intro hb
    have hb' : ¬ st.is_outbound_bootstrap_needed = true := by
      rw [hb]
      simp
    constructor
    · rw [hcon, if_neg hb']
    · rw [hbro, if_neg hb']

/-- C7, witness: a fresh manager (bound holds, empty pool, no bans)
broadcasts a `PeersRequest` and enqueues no connect. -/
theorem C7_witness :
    (mgrInit.monitor_peers 0 0).broadcastPeersRequest = true ∧
    (mgrInit.monitor_peers 0 0).connects = [] :=
  (C7_amended mgrInit 0 0 (by decide)).2.2.2.1 (by decide) (by decide)

/-- C8 (amended): provided no entry's `last_seen` lies in the future (so the
timestamp conversion-error abort of `remove_expired` is not taken), the call
succeeds, every remaining non-`Connected` entry was seen within `ttl`,
every `Connected` entry and every entry seen within `ttl` is retained
unchanged, a persisted record is retained when its id matches no expired
in-memory entry, and deleted when it matches one. -/
theorem C8_amended (ps : PeerStore) (now ttl : Nat)
    (h : ps.peer_states.all (fun p => decide (p.2.last_seen ≤ now)) = true) :
    ps.remove_expired now ttl = Except.ok (removeExpiredRun ps now ttl) ∧
    (∀ p ∈ (removeExpiredRun ps now ttl).peer_states,
        p.2.status ≠ KnownPeerStatus.Connected → now - p.2.last_seen ≤ ttl) ∧
    (∀ p ∈ ps.peer_states, p.2.status = KnownPeerStatus.Connected →
        p ∈ (removeExpiredRun ps now ttl).peer_states) ∧
    (∀ p ∈ ps.peer_states, now - p.2.last_seen ≤ ttl →
        p ∈ (removeExpiredRun ps now ttl).peer_states) ∧
    (∀ q ∈ ps.persisted,
        (∀ p ∈ ps.peer_states, p.1 = q.1 → expiredEntry now ttl p = false) →
        q ∈ (removeExpiredRun ps now ttl).persisted) ∧
    (∀ q : PeerId × KnownPeerState,
        (∃ p ∈ ps.peer_states, p.1 = q.1 ∧ expiredEntry now ttl p = true) →
        q ∉ (removeExpiredRun ps now ttl).persisted) := by
  have hany : ps.peer_states.any (fun p => decide (now < p.2.last_seen)) = false := by
    rw [List.any_eq_false]
    intro p hp
    have hle := List.all_eq_true.mp h p hp
    simp at hle ⊢
    omega
  have hok : ps.remove_expired now ttl = Except.ok
      { peer_states := ps.peer_states.filter (fun p => ! expiredEntry now ttl p),
        persisted := ps.persisted.filter (fun p => decide (p.1 ∉
          ((ps.peer_states.filter (expiredEntry now ttl)).map (fun p => p.1)))) } := by
    simp only [PeerStore.remove_expired]
    rw [if_neg (by rw [hany]; simp)]
  have hrun : removeExpiredRun ps now ttl =
      { peer_states := ps.peer_states.filter (fun p => ! expiredEntry now ttl p),
        persisted := ps.persisted.filter (fun p => decide (p.1 ∉
          ((ps.peer_states.filter (expiredEntry now ttl)).map (fun p => p.1)))) } := by
    rw [removeExpiredRun, hok]
  refine ⟨?_, ?_, ?_, ?_, ?_, ?_⟩
  · rw [hok, hrun]
  · intro p hp hst
    rw [hrun] at hp
    have hflt := (List.mem_filter.mp hp).2
    simp only [Bool.not_eq_eq_eq_not, Bool.not_true] at hflt
    simp only [expiredEntry, Bool.and_eq_false_iff] at hflt
    rcases hflt with hflt | hflt
    · exact absurd hst (by simpa using hflt)
    · simp at hflt
      omega
  · intro p hp hst
    rw [hrun]
    refine List.mem_filter.mpr ⟨hp, ?_⟩
    simp [expiredEntry, hst]
  · intro p hp hle
    rw [hrun]
    refine List.mem_filter.mpr ⟨hp, ?_⟩
    simp [expiredEntry]
    right
    omega
  · intro q hq hall
    rw [hrun]
    refine List.mem_filter.mpr ⟨hq, ?_⟩
    simp only [decide_eq_true_eq]
    intro hmem
    obtain ⟨p, hpf, hpeq⟩ := List.mem_map.mp hmem
    have hpm := List.mem_filter.mp hpf
    have := hall p hpm.1 hpeq
    rw [this] at hpm
    exact absurd hpm.2 (by simp)
  · intro q hex hqmem
    rw [hrun] at hqmem
    have hflt := (List.mem_filter.mp hqmem).2
    simp only [decide_eq_true_eq] at hflt
    apply hflt
    obtain ⟨p, hp, hpq, hexp⟩ := hex
    exact List.mem_map.mpr ⟨p, List.mem_filter.mpr ⟨hp, hexp⟩, hpq⟩

/-- C8, witness: a store whose timestamps are all in the past removes its
expired peer without error. -/
theorem C8_witness :
    expiryStore.remove_expired 100 10 =
      Except.ok (removeExpiredRun expiryStore 100 10) :=
  (C8_amended expiryStore 100 10 (by decide)).1

/-- C9: `FetchInfo` never fails, leaves the manager unchanged, and reports
the active-set size, the configured cap, and exactly the active peers tied
for the maximum `total_weight` (empty when there is no active peer). -/
theorem C9_fetch_info (st : PeerManager) :
    (st.handle_fetch_info).2 = st ∧
    (st.handle_fetch_info).1.num_active_peers = st.active_peers.length ∧
    (st.handle_fetch_info).1.peer_max_count = st.config.peer_max_count ∧
    (st.active_peers = [] → (st.handle_fetch_info).1.most_weight_peers = []) ∧
    (∀ x ∈ (st.handle_fetch_info).1.most_weight_peers,
        x ∈ st.active_peers.map (fun p => p.2) ∧
        ∀ y ∈ st.active_peers.map (fun p => p.2),
          y.chain_info.total_weight ≤ x.chain_info.total_weight) ∧
    (∀ x ∈ st.active_peers.map (fun p => p.2),
        (∀ y ∈ st.active_peers.map (fun p => p.2),
            y.chain_info.total_weight ≤ x.chain_info.total_weight) →
        x ∈ (st.handle_fetch_info).1.most_weight_peers) := by
  refine ⟨rfl, rfl, rfl, ?_, ?_, ?_⟩
  · intro he
    simp only [PeerManager.handle_fetch_info, PeerManager.most_weight_peers, he]
    rfl
  · intro x hx
    simp only [PeerManager.handle_fetch_info, PeerManager.most_weight_peers] at hx
    cases hm : (st.active_peers.map (fun p => p.2.chain_info.total_weight)).max? with
    | none =>
        rw [hm] at hx
        simp at hx
    | some w =>
        rw [hm] at hx
        obtain ⟨hwmem, hwmax⟩ := natMaxSomeIff.mp hm
        obtain ⟨p, hp, hpx⟩ := List.mem_map.mp hx
        have hp' := List.mem_filter.mp hp
        have hxw : x.chain_info.total_weight = w := by
          rw [← hpx]
          exact of_decide_eq_true hp'.2
        constructor
        · exact List.mem_map.mpr ⟨p, hp'.1, hpx⟩
        · intro y hy
          obtain ⟨q, hq, hqy⟩ := List.mem_map.mp hy
          have hyw := hwmax (y.chain_info.total_weight)
            (List.mem_map.mpr ⟨q, hq, by rw [hqy]⟩)
          rw [hxw]
          exact hyw
  · intro x hx hmax
    simp only [PeerManager.handle_fetch_info, PeerManager.most_weight_peers]
    cases hm : (st.active_peers.map (fun p => p.2.chain_info.total_weight)).max? with
    | none =>
        rw [List.max?_eq_none_iff] at hm
        rw [List.map_eq_nil_iff] at hm
        rw [hm] at hx
        exact absurd hx (by simp)
    | some w =>
        obtain ⟨hwmem, hwmax⟩ := natMaxSomeIff.mp hm
        obtain ⟨p, hp, hpx⟩ := List.mem_map.mp hx
        have hxw_le : x.chain_info.total_weight ≤ w :=
          hwmax (x.chain_info.total_weight) (List.mem_map.mpr ⟨p, hp, by rw [hpx]⟩)
        have hw_le : w ≤ x.chain_info.total_weight := by
          obtain ⟨q, hq, hqw⟩ := List.mem_map.mp hwmem
          rw [← hqw]
          exact hmax q.2 (List.mem_map.mpr ⟨q, hq, rfl⟩)
        refine List.mem_map.mpr ⟨p, List.mem_filter.mpr ⟨hp, ?_⟩, hpx⟩
        have hpw : p.2.chain_info.total_weight = w := by
          rw [hpx]
          omega
        simp [hpw]

/-- C9, witness: in a manager with a single active peer of weight 9, that
peer is reported among the most-weight peers. -/
theorem C9_witness :
    activeFull ∈ (oneActiveState.handle_fetch_info).1.most_weight_peers :=
  (C9_fetch_info oneActiveState).2.2.2.2.2 activeFull (by decide) (by decide)
